import Mathlib

/-!
Shallow embedding of the audit-log analysis engine.

`src/parser.ts` supplies the CSV field tokenizer (`parseCsvLine`), the
timestamp normalizer (`parseTimestamp`), and the transaction grouper and
classifier (`processLogFile`).  The dashboard component supplies the
aggregation functions (`finalFilteredRuns`, `companyCodeBreakdown`,
`requestTypeBreakdown`, `avgProcessingTime`).

Modelling conventions: JS strings are Lean `String`; a JS `Date` is its
epoch-millisecond value as `Int`; JS `null`/`undefined` dates become
`Option Int`; the insertion-ordered `Map`/`Set`/object-keys of JS are
association lists that preserve first-insertion order; JS float division in
the average computation is modelled by exact rational arithmetic on `ℚ`.
-/

namespace AuditLog

/-- Whitespace test backing the model of `String.prototype.trim` (ASCII range). -/
def isWsChar (c : Char) : Bool :=
  c == ' ' || c == '\t' || c == '\n' || c == '\x0d' || c == '\x0b' || c == '\x0c'

/-- Model of JS `String.prototype.trim`. -/
def jsTrim (s : String) : String :=
  ⟨((s.data.dropWhile isWsChar).reverse.dropWhile isWsChar).reverse⟩

/-- Model of JS `String.prototype.toLowerCase` (ASCII letters). -/
def lowerStr (s : String) : String := ⟨s.data.map Char.toLower⟩

/-- Model of JS `String.prototype.startsWith`. -/
def strStarts (s pat : String) : Bool := pat.data.isPrefixOf s.data

/-- Model of JS `String.prototype.endsWith`. -/
def strEnds (s pat : String) : Bool := pat.data.reverse.isPrefixOf s.data.reverse

/-- Substring search over char lists, backing the model of JS `includes`. -/
def containsSub (needle : List Char) : List Char → Bool
  | [] => needle == []
  | c :: t => needle.isPrefixOf (c :: t) || containsSub needle t

/-- Model of JS `String.prototype.includes`. -/
def strIncludes (s pat : String) : Bool := containsSub pat.data s.data

/-- Model of `fileContent.split(/\r?\n/)` from `processLogFile`: split at every
`\n` or `\r\n`; a carriage return not followed by a newline is kept. -/
def splitNl : List Char → List (List Char)
  | [] => [[]]
  | '\x0d' :: '\n' :: rest => [] :: splitNl rest
  | '\n' :: rest => [] :: splitNl rest
  | c :: rest =>
    match splitNl rest with
    | [] => [[c]]
    | f :: fs => (c :: f) :: fs

def splitLines (s : String) : List String := (splitNl s.data).map (fun l => String.mk l)

/-- The split points of `csvSplitRegex = /,(?=(?:(?:[^"]*"){2})*[^"]*$)/` in
`parseCsvLine`: a comma is a separator exactly when the remainder of the line
after it contains an even number of double-quote characters (that is what the
lookahead `(?:(?:[^"]*"){2})*[^"]*$` recognises).  The accumulator holds the
current field reversed. -/
def csvSplitFields : List Char → List Char → List (List Char)
  | [], acc => [acc.reverse]
  | c :: rest, acc =>
    if c == ',' && (rest.count '"') % 2 == 0 then
      acc.reverse :: csvSplitFields rest []
    else
      csvSplitFields rest (c :: acc)

/-- Model of `.replace(/""/g, char34)`: collapse doubled quotes left to right. -/
def collapseDq : List Char → List Char
  | [] => []
  | [c] => [c]
  | c1 :: c2 :: rest =>
    if c1 == '"' && c2 == '"' then '"' :: collapseDq rest
    else c1 :: collapseDq (c2 :: rest)

/-- Per-field cleanup from `parseCsvLine`: trim, strip a surrounding quote
pair, collapse doubled quotes.  JS `substring(1, len - 1)` swaps its bounds
when `len = 1`, so a field that is a single quote character is left intact. -/
def cleanField (s : String) : String :=
  let t := jsTrim s
  if strStarts t "\"" && strEnds t "\"" then
    let inner := if t.data.length == 1 then t.data else (t.data.drop 1).dropLast
    ⟨collapseDq inner⟩
  else t

/-- `parseCsvLine` from `src/parser.ts`. -/
def parseCsvLine (line : String) : List String :=
  (csvSplitFields line.data []).map (fun f => cleanField ⟨f⟩)

/-- `[0-9]` test of the regexes in `parseTimestamp`. -/
def isDigitChar (c : Char) : Bool := 48 ≤ c.toNat && c.toNat ≤ 57

/-- JS `parseInt` on a (non-empty, all-digit) decimal string. -/
def digitsVal (l : List Char) : Int :=
  l.foldl (fun a c => a * 10 + ((c.toNat : Int) - 48)) 0

/-- `fractionalPart.substring(0, 3).padEnd(3, char48)`. -/
def padRightZeros (l : List Char) : List Char := l ++ List.replicate (3 - l.length) '0'

/-- Proleptic-Gregorian day count from civil date (month0 already normalised
into `[0, 11]`); days relative to 1970-01-01.  This is the arithmetic the
ECMAScript `MakeDay` operation denotes. -/
def daysFromCivilM0 (y mn d : Int) : Int :=
  let m := mn + 1
  let yAdj := y - (if m ≤ 2 then 1 else 0)
  let era := yAdj / 400
  let yoe := yAdj - era * 400
  let doy := (153 * (m + (if 2 < m then (-3) else 9)) + 2) / 5 + d - 1
  let doe := yoe * 365 + yoe / 4 - yoe / 100 + doy
  era * 146097 + doe - 719468

/-- ECMAScript `MakeDay`/`MakeTime`: epoch milliseconds from components; an
out-of-range month or day is normalised arithmetically (month0 is folded into
the year by floor division, the day offsets linearly). -/
def utcMillis (y m0 d h mi s ms : Int) : Int :=
  let ym := y + m0 / 12
  let mn := m0 % 12
  daysFromCivilM0 ym mn d * 86400000 + h * 3600000 + mi * 60000 + s * 1000 + ms

/-- ECMAScript `Date.UTC`: a year component in `[0, 99]` is offset by 1900,
then `MakeDay`/`MakeTime`. -/
def jsDateUTC (y m0 d h mi s ms : Int) : Int :=
  let yr := if 0 ≤ y ∧ y ≤ 99 then y + 1900 else y
  utcMillis yr m0 d h mi s ms

/-- The ECMAScript time-value range bound (`TimeClip`): `8.64e15` ms. -/
def timeClipMax : Int := 8640000000000000

/-- The digits of `ts.replace(/[^0-9.]/g, "").split(".")[0]` — the characters
before the first decimal point after stripping. -/
def timestampDigits (ts : String) : List Char :=
  ((ts.data.filter (fun c => isDigitChar c || c == '.')).takeWhile (fun c => c != '.'))

/-- `parts.length > 1 ? parts[1] : "0"` — the characters between the first
decimal point and the next one (or the end). -/
def timestampFrac (ts : String) : List Char :=
  match (ts.data.filter (fun c => isDigitChar c || c == '.')).dropWhile (fun c => c != '.') with
  | [] => ['0']
  | _ :: r => r.takeWhile (fun c => c != '.')

/-- `parseTimestamp` from `src/parser.ts`.  The `some(isNaN)` guard of the
source can never fire (every extracted substring is a non-empty digit string),
so it is not modelled; the final `isNaN(date.getTime())` guard is the
`TimeClip` range check. -/
def parseTimestamp (ts : String) : Option Int :=
  let mainPart := timestampDigits ts
  if mainPart.length < 14 then none
  else
    let t := jsDateUTC (digitsVal (mainPart.take 4))
      (digitsVal ((mainPart.drop 4).take 2) - 1)
      (digitsVal ((mainPart.drop 6).take 2))
      (digitsVal ((mainPart.drop 8).take 2))
      (digitsVal ((mainPart.drop 10).take 2))
      (digitsVal ((mainPart.drop 12).take 2))
      (digitsVal (padRightZeros ((timestampFrac ts).take 3)))
    if t < -timeClipMax ∨ timeClipMax < t then none else some t

/-- Spec-worded timestamp normalizer (for comparison with `parseTimestamp`):
"interpret the digits before the decimal point as a fixed-width
yyyyMMddHHmmss sequence … and only its first three fractional digits (padded
with zeros if fewer) as milliseconds", with every component taken literally —
in particular the 4-digit year is used exactly as written. -/
def specTimestampNormalizer (ts : String) : Option Int :=
  let mainPart := timestampDigits ts
  if mainPart.length < 14 then none
  else
    some (utcMillis (digitsVal (mainPart.take 4))
      (digitsVal ((mainPart.drop 4).take 2) - 1)
      (digitsVal ((mainPart.drop 6).take 2))
      (digitsVal ((mainPart.drop 8).take 2))
      (digitsVal ((mainPart.drop 10).take 2))
      (digitsVal ((mainPart.drop 12).take 2))
      (digitsVal (padRightZeros ((timestampFrac ts).take 3))))

/-- One grouped log entry: `{ message, type, timestamp }` in `processLogFile`. -/
structure Entry where
  message : String
  type : String
  timestamp : Option Int
deriving DecidableEq

/-- One value of the `groupedByTransaction` map. -/
structure GroupData where
  entries : List Entry
  coCd : String
  timestamps : List Int
deriving DecidableEq

/-- The `Run` record of `src/Audit-log.ts` (`companyCode` is `string | null`
there, hence `Option String`; dates are epoch milliseconds). -/
structure Run where
  uniqueKey : String
  companyCode : Option String
  requestTypes : List String
  isIntercompany : Bool
  isAutoApproved : Bool
  isSecondLevelApproval : Bool
  isErrorTransaction : Bool
  isWbsOwnerMissing : Bool
  isCostCenterOwnerMissing : Bool
  isFallbackTransaction : Bool
  transactionDate : Int
  startTime : Option Int
  endTime : Option Int
deriving DecidableEq

/-- The resolved header column indices of `processLogFile`. -/
structure ColumnConfig where
  docIdIndex : Nat
  coCdIndex : Nat
  messageIndex : Nat
  timestampIndex : Nat
  typeIndex : Nat
  docVerIndex : Option Nat
deriving DecidableEq

def autoApprovalMessage : String :=
  "Document assessment executed with the result Approval NOT required"

def secondLevelApprovalMessage : String :=
  "2nd Approval is mandated as document amount is"

def errorMessage : String :=
  "An Error occured while determining the approvers"

def startProcessingMessage : String :=
  "Running the document assessment, based on outcome: proceed or end"

def endProcessingMessage : String :=
  "Completed execution of the Financial Approvals engine - technical success"

def wbsOwnerMissingMessage : String :=
  "Failed to identify WBS Element object owner for object"

def costCenterOwnerMissingMessage : String :=
  "Failed to identify Cost Center object owner for object"

def fallbackMessagePrefix : String :=
  "Using HR Hierarchy data with key"

def intercompanyPositive : String :=
  "Intercompany supplier identified with supplier ID"

def intercompanyNegative : String :=
  "Non Intercompany supplier identified with supplier ID"

/-- `\s` of the threshold regex (ASCII range). -/
def jsWs (c : Char) : Bool := isWsChar c

/-- `[A-Z]` under the `/i` flag: an ASCII letter. -/
def isLetterChar (c : Char) : Bool := c.isAlpha

def valuesLit : List Char := ['v', 'a', 'l', 'u', 'e', 's', ':']

def thresholdLit : List Char := "threshold identified:".data

/-- Case-insensitive literal match at the head (`pat` is already lowercase). -/
def ciStarts : List Char → List Char → Bool
  | [], _ => true
  | _ :: _, [] => false
  | p :: ps, c :: cs => p == c.toLower && ciStarts ps cs

/-- Leftmost case-insensitive occurrence of `pat`; returns the suffix after it. -/
def dropCi (pat : List Char) : List Char → Option (List Char)
  | [] => if ciStarts pat [] then some [] else none
  | c :: t =>
    if ciStarts pat (c :: t) then some ((c :: t).drop pat.length) else dropCi pat t

/-- `\s+values:` continuation after at least one whitespace char was consumed. -/
def afterWsValues : List Char → Bool
  | [] => false
  | c :: t => ciStarts valuesLit (c :: t) || (jsWs c && afterWsValues t)

/-- `\s+values:` (case-insensitive literal). -/
def wsThenValues : List Char → Bool
  | [] => false
  | c :: t => jsWs c && afterWsValues t

/-- `(?<docType>[A-Z]{3,4})\s+values:` right after a slash — greedy `{3,4}`
tries four letters first, then three. -/
def tryCode (s : List Char) : Option String :=
  let c4 := s.take 4
  if c4.length == 4 && c4.all isLetterChar && wsThenValues (s.drop 4) then
    some ⟨c4.map Char.toUpper⟩
  else
    let c3 := s.take 3
    if c3.length == 3 && c3.all isLetterChar && wsThenValues (s.drop 3) then
      some ⟨c3.map Char.toUpper⟩
    else none

/-- The lazy `[\s\S]*?\/` step: earliest slash whose continuation matches. -/
def scanSlash : List Char → Option String
  | [] => none
  | c :: t =>
    if c == '/' then
      match tryCode t with
      | some code => some code
      | none => scanSlash t
    else scanSlash t

/-- The `thresholdRegex` match of `processLogFile`:
`/Threshold identified:[\s\S]*?\/(?<docType>[A-Z]{3,4})\s+values:/i`,
returning the captured code upper-cased. -/
def extractDocType (msg : String) : Option String :=
  match dropCi thresholdLit msg.data with
  | some rest => scanSlash rest
  | none => none

/-- `Set` insertion-order dedup (`requestTypesForRun`). -/
def dedupAux (seen : List String) : List String → List String
  | [] => []
  | x :: r => if seen.contains x then dedupAux seen r else x :: dedupAux (x :: seen) r

def dedupKeepFirst (l : List String) : List String := dedupAux [] l

def entryTime (e : Entry) : Int := e.timestamp.getD 0

/-- Stable insertion step of the descending `sort((a, b) => b.t - a.t)`. -/
def insertDescEntry (e : Entry) : List Entry → List Entry
  | [] => [e]
  | f :: fs => if entryTime f ≤ entryTime e then e :: f :: fs else f :: insertDescEntry e fs

/-- Stable sort by timestamp, latest first (JS `Array.prototype.sort` is stable). -/
def sortByTimeDesc (l : List Entry) : List Entry := l.foldr insertDescEntry []

/-- `Math.max` over a list of time values. -/
def maxInt? : List Int → Option Int
  | [] => none
  | x :: r =>
    match maxInt? r with
    | none => some x
    | some m => some (max x m)

/-- The per-group classifier: the body of the `.map` over
`groupedByTransaction.entries()` in `processLogFile`. -/
def buildRun (key : String) (data : GroupData) : Run :=
  let latestTimestamp := match maxInt? data.timestamps with | some t => t | none => 0
  let startEntries := sortByTimeDesc (data.entries.filter (fun e =>
    e.message == startProcessingMessage && e.timestamp.isSome))
  let endEntries := sortByTimeDesc (data.entries.filter (fun e =>
    e.message == endProcessingMessage && e.timestamp.isSome))
  { uniqueKey := key
    companyCode := some data.coCd
    requestTypes := dedupKeepFirst (data.entries.filterMap (fun e => extractDocType e.message))
    isIntercompany := data.entries.any (fun e =>
      strIncludes e.message intercompanyPositive && !(strIncludes e.message intercompanyNegative))
    isAutoApproved := data.entries.any (fun e => e.message == autoApprovalMessage)
    isSecondLevelApproval := data.entries.any (fun e =>
      strStarts e.message secondLevelApprovalMessage)
    isErrorTransaction := data.entries.any (fun e =>
      e.message == errorMessage && e.type == "E")
    isWbsOwnerMissing := data.entries.any (fun e => strStarts e.message wbsOwnerMissingMessage)
    isCostCenterOwnerMissing := data.entries.any (fun e =>
      strStarts e.message costCenterOwnerMissingMessage)
    isFallbackTransaction := data.entries.any (fun e =>
      strStarts e.message fallbackMessagePrefix)
    transactionDate := latestTimestamp
    startTime := (startEntries.head?).bind (fun e => e.timestamp)
    endTime := (endEntries.head?).bind (fun e => e.timestamp) }

/-- `Map.has`/`Map.set`/push: apply `f` to the group at `key`, inserting
`f init` at the end when the key is new (JS `Map` preserves insertion order). -/
def updateGroup (m : List (String × GroupData)) (key : String)
    (f : GroupData → GroupData) (init : GroupData) : List (String × GroupData) :=
  if m.any (fun p => p.1 == key) then
    m.map (fun p => if p.1 == key then (p.1, f p.2) else p)
  else m ++ [(key, f init)]

/-- The body of the `for (const line of dataRows)` loop of `processLogFile`,
acting on the already-tokenized field list of one row. -/
def ingestRow (cfg : ColumnConfig) (m : List (String × GroupData))
    (fields : List String) : List (String × GroupData) :=
  if fields.length ≤ cfg.docIdIndex ∨ fields.length ≤ cfg.messageIndex ∨
      fields.length ≤ cfg.coCdIndex ∨ fields.length ≤ cfg.timestampIndex ∨
      fields.length ≤ cfg.typeIndex then m
  else
    let documentId := jsTrim (fields.getD cfg.docIdIndex "")
    let companyCode := jsTrim (fields.getD cfg.coCdIndex "")
    if documentId ≠ "" ∧ companyCode ≠ "" then
      let docVer := match cfg.docVerIndex with
        | some i => jsTrim (fields.getD i "")
        | none => ""
      let uniqueKey := documentId ++ "-" ++ docVer ++ "-" ++ companyCode
      let message := jsTrim (fields.getD cfg.messageIndex "")
      let timestamp := parseTimestamp (jsTrim (fields.getD cfg.timestampIndex ""))
      let ty := jsTrim (fields.getD cfg.typeIndex "")
      updateGroup m uniqueKey
        (fun g =>
          { g with
            entries := if message ≠ "" then g.entries ++ [⟨message, ty, timestamp⟩] else g.entries
            timestamps := match timestamp with
              | some t => g.timestamps ++ [t]
              | none => g.timestamps })
        { entries := [], coCd := companyCode, timestamps := [] }
    else m

/-- Grouping plus classification over tokenized data rows: the loop and the
final `.map` of `processLogFile`. -/
def runsOfRows (cfg : ColumnConfig) (rows : List (List String)) : List Run :=
  ((rows.foldl (fun m fields => ingestRow cfg m fields) []).map (fun p => buildRun p.1 p.2))

/-- Model of `Array.prototype.indexOf` on the header list. -/
def indexOfStr? (name : String) : List String → Option Nat
  | [] => none
  | x :: r => if x == name then some 0 else (indexOfStr? name r).map (fun i => i + 1)

/-- `lines`: split on line breaks, drop lines that are empty after trimming. -/
def nonEmptyLines (content : String) : List String :=
  (splitLines content).filter (fun l => jsTrim l ≠ "")

/-- `header`: first non-empty line, tokenized, each field trimmed + lowercased. -/
def headerOf (content : String) : List String :=
  (parseCsvLine ((nonEmptyLines content).headD "")).map (fun h => lowerStr (jsTrim h))

def errEmptySheet : String := "The sheet appears to be empty or contains only a header."

def errDocId : String :=
  "Could not find required column: \x27Document ID\x27. Please check the column header."

def errCoCd : String :=
  "Could not find required column: \x27CoCd\x27. Please check the column header."

def errMessage : String :=
  "Could not find required column: \x27Message\x27. This column is needed for analysis."

def errTimestamp : String :=
  "Could not find required column: \x27TimeStamp\x27. This column is needed for the monthly chart."

def errType : String :=
  "Could not find required column: \x27Type\x27. This column is needed for error analysis."

/-- `processLogFile` from `src/parser.ts`; the `AnalysisResult` union becomes
`Except String (List Run)`. -/
def processLogFile (fileContent : String) : Except String (List Run) :=
  let lines := nonEmptyLines fileContent
  if lines.length < 2 then .error errEmptySheet
  else
    let header := headerOf fileContent
    match indexOfStr? "document id" header with
    | none => .error errDocId
    | some docIdIndex =>
      match indexOfStr? "cocd" header with
      | none => .error errCoCd
      | some coCdIndex =>
        match indexOfStr? "message" header with
        | none => .error errMessage
        | some messageIndex =>
          match indexOfStr? "timestamp" header with
          | none => .error errTimestamp
          | some timestampIndex =>
            match indexOfStr? "type" header with
            | none => .error errType
            | some typeIndex =>
              let docVerIndex := indexOfStr? "document version" header
              .ok (runsOfRows ⟨docIdIndex, coCdIndex, messageIndex, timestampIndex,
                typeIndex, docVerIndex⟩ ((lines.drop 1).map parseCsvLine))

/-- The run list of a successful analysis (`none` on the error variant). -/
def analysisRuns : Except String (List Run) → Option (List Run)
  | .ok rs => some rs
  | .error _ => none

/-- The dashboard filter state: `selectedCompanyCodes : Set<string>` and
`selectedRequestType : string | null`. -/
structure FilterState where
  selectedCompanyCodes : List String
  selectedRequestType : Option String
deriving DecidableEq

/-- `selectedRequestType ? runs.filter(r => r.requestTypes.includes(t)) : runs`
(the empty string is falsy in JS). -/
def runsFilteredByRequestType (allRuns : List Run) (rt : Option String) : List Run :=
  match rt with
  | some t => if t != "" then allRuns.filter (fun r => r.requestTypes.contains t) else allRuns
  | none => allRuns

/-- `selectedCompanyCodes.size > 0 ? runs.filter(r => r.companyCode && has(...)) : runs`. -/
def ccTruthyFilter (allRuns : List Run) (sel : List String) : List Run :=
  if sel.isEmpty then allRuns
  else allRuns.filter (fun r =>
    match r.companyCode with
    | some s => s != "" && sel.contains s
    | none => false)

/-- `finalFilteredRuns` of the dashboard: company-code filter, then
request-type filter. -/
def finalFilteredRuns (allRuns : List Run) (st : FilterState) : List Run :=
  runsFilteredByRequestType (ccTruthyFilter allRuns st.selectedCompanyCodes)
    st.selectedRequestType

/-- Increment the count of `k`; new keys go to the end (JS object string keys
iterate in insertion order for the non-numeric company/request codes). -/
def bumpKey : List (String × Nat) → String → List (String × Nat)
  | [], k => [(k, 1)]
  | p :: rest, k => if p.1 == k then (p.1, p.2 + 1) :: rest else p :: bumpKey rest k

def countByKey (ks : List String) : List (String × Nat) := ks.foldl bumpKey []

/-- Stable insertion step of `sort((a, b) => b.count - a.count)`. -/
def insertCountDesc (x : String × Nat) : List (String × Nat) → List (String × Nat)
  | [] => [x]
  | y :: ys => if y.2 ≤ x.2 then x :: y :: ys else y :: insertCountDesc x ys

def sortCountDesc (l : List (String × Nat)) : List (String × Nat) := l.foldr insertCountDesc []

structure CompanyCodeBreakdownItem where
  companyCode : String
  transactions : Nat
deriving DecidableEq

structure RequestTypeBreakdownItem where
  type : String
  documents : Nat
deriving DecidableEq

/-- `companyCodeBreakdown` of the dashboard: counts Runs per (truthy) company
code over the runs filtered only by the request-type selection; the
company-code selection is not consulted. -/
def companyCodeBreakdown (allRuns : List Run) (st : FilterState) :
    List CompanyCodeBreakdownItem :=
  let runsToConsider := runsFilteredByRequestType allRuns st.selectedRequestType
  let keys := runsToConsider.filterMap (fun r =>
    match r.companyCode with
    | some s => if s != "" then some s else none
    | none => none)
  (sortCountDesc (countByKey keys)).map (fun p => ⟨p.1, p.2⟩)

/-- `requestTypeBreakdown` of the dashboard: counts (Run, type) memberships
over the runs filtered only by the company-code selection; the request-type
selection is not consulted. -/
def requestTypeBreakdown (allRuns : List Run) (st : FilterState) :
    List RequestTypeBreakdownItem :=
  let runsToConsider := ccTruthyFilter allRuns st.selectedCompanyCodes
  let keys := (runsToConsider.map (fun r => r.requestTypes)).flatten
  (sortCountDesc (countByKey keys)).map (fun p => ⟨p.1, p.2⟩)

/-- `validRuns`: members of the effective filtered set with both times present. -/
def bothTimesRuns (allRuns : List Run) (st : FilterState) : List Run :=
  (finalFilteredRuns allRuns st).filter (fun r => r.startTime.isSome && r.endTime.isSome)

def totalDurationMs (l : List Run) : Int :=
  l.foldl (fun acc r => acc + (r.endTime.getD 0 - r.startTime.getD 0)) 0

/-- `totalDuration / validRuns.length` as an exact rational. -/
def meanDurationMs (l : List Run) : ℚ := (totalDurationMs l : ℚ) / (l.length : ℚ)

/-- JS `Math.round`: round half up. -/
def jsRound (q : ℚ) : Int := ⌊q + 1/2⌋

/-- `avgProcessingTime` of the dashboard.  The float arithmetic of the source
is modelled exactly on `ℚ`; the `isNaN(avgDurationMs)` guard of the source
cannot fire in this model (the list is non-empty in that branch). -/
def avgProcessingTime (allRuns : List Run) (st : FilterState) : String :=
  let validRuns := bothTimesRuns allRuns st
  if validRuns.length = 0 then "N/A"
  else
    let avgDurationMs := meanDurationMs validRuns
    if avgDurationMs = 0 then "0 sec"
    else
      let totalSeconds := avgDurationMs / 1000
      let seconds : Int := ⌊totalSeconds⌋
      let milliseconds : Int := jsRound ((totalSeconds - (seconds : ℚ)) * 1000)
      if 0 < seconds then toString seconds ++ " sec, " ++ toString milliseconds ++ " ms"
      else toString milliseconds ++ " ms"

/-- Spec-worded classifier clause for C6: the latest parsed timestamp among the
entries whose message exactly equals the marker text. -/
def latestMarkerTime (marker : String) (entries : List Entry) : Option Int :=
  maxInt? (entries.filterMap (fun e => if e.message = marker then e.timestamp else none))

/-- A plain classified run used as a concrete aggregation fixture. -/
def plainRun (st en : Option Int) : Run :=
  ⟨"k", some "US1", ["POC"], false, false, false, false, false, false, false, 0, st, en⟩

/-- Every entry timestamp of the group is recorded in its timestamp list (the
grouping loop pushes the parsed timestamp to both). -/
def tsClosed (g : GroupData) : Prop :=
  ∀ e ∈ g.entries, ∀ t, e.timestamp = some t → t ∈ g.timestamps

/-- The column layout of the canonical header
`Document ID,Document Version,CoCd,Message,TimeStamp,Type`. -/
def stdCfg : ColumnConfig := ⟨0, 2, 3, 4, 5, some 1⟩

/-- Concrete single-row input for the C9 witness. -/
def c9File : String := "Document ID,CoCd,Message,TimeStamp,Type\nD1,US1,hello,1,S"

/-- Concrete single-row input with a "processing completed" marker for the C10
witness. -/
def c10File : String :=
  "Document ID,CoCd,Message,TimeStamp,Type\nD1,US1,Completed execution of the Financial Approvals engine - technical success,20240301120005,S"

/-- Two rows whose (document id, version, company code) triples differ —
`(a, b-c, d)` versus `(a-b, c, d)` — but whose hyphen-joined grouping keys
coincide (`a-b-c-d`). -/
def collisionFile : String :=
  "Document ID,Document Version,CoCd,Message,TimeStamp,Type\na,b-c,d,m1,1,S\na-b,c,d,m2,1,S"

/-! ## Theorems -/

theorem indexOfStr?_eq_none_iff (a : String) (l : List String) :
    indexOfStr? a l = none ↔ a ∉ l := by
  induction l with
  | nil => simp [indexOfStr?]
  | cons x r ih =>
    by_cases hx : x = a
    · simp [indexOfStr?, hx]
    · have hax : a ≠ x := fun hc => hx hc.symm
      simp [indexOfStr?, hx, Option.map_eq_none', ih, hax]

theorem mem_insertDescEntry {x e : Entry} {l : List Entry} :
    x ∈ insertDescEntry e l ↔ x = e ∨ x ∈ l := by
  induction l with
  | nil => simp [insertDescEntry]
  | cons f fs ih =>
    simp only [insertDescEntry]
    split
    · simp
    · simp only [List.mem_cons, ih]
      tauto

theorem mem_sortByTimeDesc {x : Entry} {l : List Entry} :
    x ∈ sortByTimeDesc l ↔ x ∈ l := by
  induction l with
  | nil => simp [sortByTimeDesc]
  | cons e t ih =>
    show x ∈ insertDescEntry e (sortByTimeDesc t) ↔ _
    rw [mem_insertDescEntry, ih]
    simp

theorem head_sortByTimeDesc (l : List Entry) :
    (sortByTimeDesc l).head?.map entryTime = maxInt? (l.map entryTime) := by
  induction l with
  | nil => rfl
  | cons e t ih =>
    show (insertDescEntry e (sortByTimeDesc t)).head?.map entryTime = _
    rcases hs : sortByTimeDesc t with _ | ⟨f, fs⟩
    · rw [hs] at ih
      simp only [List.map_cons, maxInt?, ← ih]
      simp [insertDescEntry]
    · rw [hs] at ih
      simp only [List.map_cons, maxInt?, ← ih]
      simp only [insertDescEntry]
      split
      · simp [max_eq_left ‹entryTime f ≤ entryTime e›]
      · have : entryTime e ≤ entryTime f := le_of_not_le ‹¬entryTime f ≤ entryTime e›
        simp [max_eq_right this]

theorem filter_marker_map (msg : String) (l : List Entry) :
    (l.filter (fun e => e.message == msg && e.timestamp.isSome)).map entryTime =
      l.filterMap (fun e => if e.message = msg then e.timestamp else none) := by
  induction l with
  | nil => rfl
  | cons e t ih =>
    by_cases hm : e.message = msg
    · rcases ht : e.timestamp with _ | ts
      · simp [List.filter_cons, List.filterMap_cons, hm, ht, ih]
      · simp [List.filter_cons, List.filterMap_cons, hm, ht, ih, entryTime]
    · simp [List.filter_cons, List.filterMap_cons, hm, ih]

theorem head_bind_timestamp (msg : String) (l : List Entry) :
    ((sortByTimeDesc (l.filter (fun e => e.message == msg && e.timestamp.isSome))).head?.bind
      (fun e => e.timestamp)) = latestMarkerTime msg l := by
  have hmax := head_sortByTimeDesc (l.filter (fun e => e.message == msg && e.timestamp.isSome))
  rcases hs : (sortByTimeDesc (l.filter (fun e =>
      e.message == msg && e.timestamp.isSome))).head? with _ | e
  · rw [hs] at hmax
    simp only [latestMarkerTime, ← filter_marker_map, ← hmax]
    rfl
  · rw [hs] at hmax
    have hmem : e ∈ l.filter (fun e => e.message == msg && e.timestamp.isSome) :=
      mem_sortByTimeDesc.mp (List.mem_of_mem_head? (by simp [hs]))
    have hsome : e.timestamp.isSome := by
      have := (List.mem_filter.mp hmem).2
      exact (Bool.and_elim_right this)
    obtain ⟨ts, hts⟩ := Option.isSome_iff_exists.mp hsome
    have het : entryTime e = ts := by simp [entryTime, hts]
    simp only [latestMarkerTime, ← filter_marker_map, ← hmax]
    simp [hts, het]

/-- C6: for every transaction group the classifier's `startTime` is the latest
parsed timestamp among entries whose message exactly equals the fixed
"processing started" marker text (absent when no matching entry has a parsed
timestamp), `endTime` is the symmetric value for the "processing completed"
marker, and with two start markers at times 100 and 200 the later one wins. -/
theorem start_end_latest_marker (key : String) (data : GroupData) :
    (buildRun key data).startTime = latestMarkerTime startProcessingMessage data.entries ∧
    (buildRun key data).endTime = latestMarkerTime endProcessingMessage data.entries ∧
    (buildRun "k" ⟨[⟨startProcessingMessage, "S", some 100⟩,
        ⟨startProcessingMessage, "S", some 200⟩], "US1", [100, 200]⟩).startTime = some 200 := by
  refine ⟨?_, ?_, by decide⟩
  · simp only [buildRun]
    exact head_bind_timestamp _ _
  · simp only [buildRun]
    exact head_bind_timestamp _ _

/-- C2: the company-code breakdown reads only the request-type selection of the
filter state and the request-type breakdown reads only the company-code
selection, so each breakdown is unchanged by any modification of its own
dimension's filter (the other dimension's filter is the only one applied). -/
theorem breakdown_cross_filter_independence (runs : List Run) (s1 s2 : FilterState) :
    (s1.selectedRequestType = s2.selectedRequestType →
      companyCodeBreakdown runs s1 = companyCodeBreakdown runs s2) ∧
    (s1.selectedCompanyCodes = s2.selectedCompanyCodes →
      requestTypeBreakdown runs s1 = requestTypeBreakdown runs s2) := by
  constructor
  · intro h
    unfold companyCodeBreakdown
    rw [h]
  · intro h
    unfold requestTypeBreakdown
    rw [h]

/-- Witness for C2 at a concrete run collection: changing the selected company
codes does not change the company-code breakdown, and changing the selected
request type does not change the request-type breakdown. -/
theorem breakdown_cross_filter_witness :
    companyCodeBreakdown [plainRun none none] ⟨["US1"], some "POC"⟩ =
      companyCodeBreakdown [plainRun none none] ⟨[], some "POC"⟩ ∧
    requestTypeBreakdown [plainRun none none] ⟨["US1"], some "POC"⟩ =
      requestTypeBreakdown [plainRun none none] ⟨["US1"], none⟩ :=
  ⟨(breakdown_cross_filter_independence [plainRun none none] ⟨["US1"], some "POC"⟩
      ⟨[], some "POC"⟩).1 rfl,
   (breakdown_cross_filter_independence [plainRun none none] ⟨["US1"], some "POC"⟩
      ⟨["US1"], none⟩).2 rfl⟩

/-- C7: the analysis fails (produces an error string and no run collection)
exactly when the input has fewer than two non-empty lines or one of the five
required header names — `document id`, `cocd` (the company-code column),
`message`, `timestamp`, `type`, matched case-insensitively after trimming —
is absent from the header; on every other input it produces a run collection. -/
theorem error_iff_structural (content : String) :
    analysisRuns (processLogFile content) = none ↔
      (nonEmptyLines content).length < 2 ∨
      "document id" ∉ headerOf content ∨ "cocd" ∉ headerOf content ∨
      "message" ∉ headerOf content ∨ "timestamp" ∉ headerOf content ∨
      "type" ∉ headerOf content := by
  unfold processLogFile
  by_cases h2 : (nonEmptyLines content).length < 2
  · simp [h2, analysisRuns]
  · rw [if_neg h2]
    rcases h1 : indexOfStr? "document id" (headerOf content) with _ | i1
    · simp [h1, analysisRuns, h2, (indexOfStr?_eq_none_iff _ _).mp h1]
    have m1 : "document id" ∈ headerOf content := by
      by_contra hc
      rw [← indexOfStr?_eq_none_iff] at hc
      rw [h1] at hc
      cases hc
    rcases hc1 : indexOfStr? "cocd" (headerOf content) with _ | i2
    · simp [h1, hc1, analysisRuns, h2, (indexOfStr?_eq_none_iff _ _).mp hc1]
    have m2 : "cocd" ∈ headerOf content := by
      by_contra hc
      rw [← indexOfStr?_eq_none_iff] at hc
      rw [hc1] at hc
      cases hc
    rcases hc2 : indexOfStr? "message" (headerOf content) with _ | i3
    · simp [h1, hc1, hc2, analysisRuns, h2, (indexOfStr?_eq_none_iff _ _).mp hc2]
    have m3 : "message" ∈ headerOf content := by
      by_contra hc
      rw [← indexOfStr?_eq_none_iff] at hc
      rw [hc2] at hc
      cases hc
    rcases hc3 : indexOfStr? "timestamp" (headerOf content) with _ | i4
    · simp [h1, hc1, hc2, hc3, analysisRuns, h2, (indexOfStr?_eq_none_iff _ _).mp hc3]
    have m4 : "timestamp" ∈ headerOf content := by
      by_contra hc
      rw [← indexOfStr?_eq_none_iff] at hc
      rw [hc3] at hc
      cases hc
    rcases hc4 : indexOfStr? "type" (headerOf content) with _ | i5
    · simp [h1, hc1, hc2, hc3, hc4, analysisRuns, h2, (indexOfStr?_eq_none_iff _ _).mp hc4]
    have m5 : "type" ∈ headerOf content := by
      by_contra hc
      rw [← indexOfStr?_eq_none_iff] at hc
      rw [hc4] at hc
      cases hc
    simp [h1, hc1, hc2, hc3, hc4, analysisRuns, h2, m1, m2, m3, m4, m5]

theorem collapseDq_of_no_quote (l : List Char) (h : ∀ c ∈ l, c ≠ '"') :
    collapseDq l = l := by
  induction l with
  | nil => rfl
  | cons c t ih =>
    cases t with
    | nil => rfl
    | cons c2 r =>
      have hc : c ≠ '"' := h c (by simp)
      rw [collapseDq, if_neg (by simp [hc])]
      rw [ih (fun x hx => h x (by simp [List.mem_cons] at hx ⊢; tauto))]

theorem csvSplitFields_quote_tail (pre : List Char) (acc : List Char)
    (h : ∀ c ∈ pre, c ≠ '"') :
    csvSplitFields (pre ++ ['"']) acc = [acc.reverse ++ (pre ++ ['"'])] := by
  induction pre generalizing acc with
  | nil =>
    show csvSplitFields ('"' :: []) acc = _
    rw [csvSplitFields, if_neg (by simp)]
    simp [csvSplitFields]
  | cons c pre' ih =>
    have hcount : ((pre' ++ ['"']).count '"') = 1 := by
      rw [List.count_append]
      have h0 : pre'.count '"' = 0 := List.count_eq_zero.mpr (fun hc =>
        h '"' (List.mem_cons_of_mem c hc) rfl)
      simp [h0, List.count_cons]
    show csvSplitFields (c :: (pre' ++ ['"'])) acc = _
    rw [csvSplitFields, if_neg (by simp [hcount])]
    rw [ih (c :: acc) (fun x hx => h x (List.mem_cons_of_mem c hx))]
    simp

theorem jsTrim_quote_wrapped (l : List Char) :
    jsTrim ⟨'"' :: (l ++ ['"'])⟩ = ⟨'"' :: (l ++ ['"'])⟩ := by
  unfold jsTrim
  have h1 : ('"' :: (l ++ ['"'])).dropWhile isWsChar = '"' :: (l ++ ['"']) := by
    rw [List.dropWhile_cons]
    simp [isWsChar]
  rw [show (String.mk ('"' :: (l ++ ['"']))).data = '"' :: (l ++ ['"']) from rfl, h1]
  have h2 : ('"' :: (l ++ ['"'])).reverse = '"' :: (l.reverse ++ ['"']) := by
    simp
  rw [h2, List.dropWhile_cons]
  simp [isWsChar]

/-- C5: the tokenizer splits only at separators outside quoted regions, strips
the outer quote pair of a quoted field, and collapses doubled quotes: a fully
quoted quote-free field is returned verbatim however many separators it holds,
the claim's own example `"a,b""c"` yields the single field `a,b"c`, and an
unquoted separator next to a quoted one splits as expected. -/
theorem tokenizer_quoting :
    (∀ inner : List Char, (∀ c ∈ inner, c ≠ '"') →
      parseCsvLine ⟨'"' :: (inner ++ ['"'])⟩ = [⟨inner⟩]) ∧
    parseCsvLine "\"a,b\"\"c\"" = ["a,b\"c"] ∧
    parseCsvLine "a,\"b,c\",d" = ["a", "b,c", "d"] := by
  refine ⟨?_, by decide, by decide⟩
  intro inner h
  unfold parseCsvLine
  have hsplit : csvSplitFields ('"' :: (inner ++ ['"'])) [] = ['"' :: (inner ++ ['"'])] := by
    rw [csvSplitFields, if_neg (by simp)]
    rw [csvSplitFields_quote_tail inner ['"'] h]
    simp
  rw [show (String.mk ('"' :: (inner ++ ['"']))).data = '"' :: (inner ++ ['"']) from rfl,
    hsplit]
  simp only [List.map_cons, List.map_nil, cleanField, jsTrim_quote_wrapped]
  have hstart : strStarts ⟨'"' :: (inner ++ ['"'])⟩ "\"" = true := by
    simp [strStarts, List.isPrefixOf]
  have hends : strEnds ⟨'"' :: (inner ++ ['"'])⟩ "\"" = true := by
    have h2 : ('"' :: (inner ++ ['"'])).reverse = '"' :: (inner.reverse ++ ['"']) := by simp
    simp [strEnds, h2, List.isPrefixOf]
  rw [hstart, hends]
  have hlen : ((String.mk ('"' :: (inner ++ ['"']))).data.length == 1) = false := by
    show (('"' :: (inner ++ ['"'])).length == 1) = false
    rw [beq_eq_false_iff_ne]
    simp
  rw [hlen]
  simp only [Bool.and_self, if_true, Bool.false_eq_true, if_false]
  have hdrop : (String.mk ('"' :: (inner ++ ['"']))).data.drop 1 = inner ++ ['"'] := rfl
  rw [hdrop, List.dropLast_concat, collapseDq_of_no_quote inner h]

/-- Witness for C5's quoted-field clause at the concrete field `x,y`:
`"x,y"` tokenizes to the single field `x,y`. -/
theorem tokenizer_quoting_witness :
    parseCsvLine ⟨'"' :: ("x,y".data ++ ['"'])⟩ = [⟨"x,y".data⟩] :=
  tokenizer_quoting.1 "x,y".data (by decide)

theorem digitsVal_aux (l : List Char) (a : Int)
    (h : ∀ c ∈ l, isDigitChar c = true) (ha : 0 ≤ a) :
    a * 10 ^ l.length ≤ l.foldl (fun a c => a * 10 + ((c.toNat : Int) - 48)) a ∧
    l.foldl (fun a c => a * 10 + ((c.toNat : Int) - 48)) a < (a + 1) * 10 ^ l.length := by
  induction l generalizing a with
  | nil => simp [ha]
  | cons c t ih =>
    have hc := h c (List.mem_cons_self c t)
    have hcv : 48 ≤ (c.toNat : Int) ∧ (c.toNat : Int) ≤ 57 := by
      simp only [isDigitChar, Bool.and_eq_true, decide_eq_true_eq] at hc
      omega
    have ht : ∀ x ∈ t, isDigitChar x = true := fun x hx => h x (List.mem_cons_of_mem c hx)
    have ha' : 0 ≤ a * 10 + ((c.toNat : Int) - 48) := by omega
    obtain ⟨l1, l2⟩ := ih (a * 10 + ((c.toNat : Int) - 48)) ht ha'
    have hpow : (0:Int) ≤ 10 ^ t.length := by positivity
    constructor
    · calc a * 10 ^ (c :: t).length = (a * 10) * 10 ^ t.length := by
            rw [List.length_cons]; ring
        _ ≤ (a * 10 + ((c.toNat : Int) - 48)) * 10 ^ t.length := by nlinarith
        _ ≤ _ := l1
    · calc t.foldl (fun a c => a * 10 + ((c.toNat : Int) - 48))
            (a * 10 + ((c.toNat : Int) - 48)) < (a * 10 + ((c.toNat : Int) - 48) + 1) *
            10 ^ t.length := l2
        _ ≤ ((a + 1) * 10) * 10 ^ t.length := by nlinarith
        _ = (a + 1) * 10 ^ (c :: t).length := by rw [List.length_cons]; ring

theorem digitsVal_nonneg (l : List Char) (h : ∀ c ∈ l, isDigitChar c = true) :
    0 ≤ digitsVal l := by
  have := (digitsVal_aux l 0 h le_rfl).1
  simpa [digitsVal] using this

theorem digitsVal_lt (l : List Char) (h : ∀ c ∈ l, isDigitChar c = true) :
    digitsVal l < 10 ^ l.length := by
  have := (digitsVal_aux l 0 h le_rfl).2
  simpa [digitsVal] using this

theorem timestampDigits_digits (ts : String) :
    ∀ c ∈ timestampDigits ts, isDigitChar c = true := by
  intro c hc
  unfold timestampDigits at hc
  have hp := List.mem_takeWhile_imp hc
  have hmem : c ∈ ts.data.filter (fun c => isDigitChar c || c == '.') :=
    (List.takeWhile_sublist _).subset hc
  have hq := (List.mem_filter.mp hmem).2
  have hne : c ≠ '.' := by simpa using hp
  simpa [hne] using hq

theorem timestampFrac_digits (ts : String) :
    ∀ c ∈ timestampFrac ts, isDigitChar c = true := by
  intro c hc
  rcases hd : (ts.data.filter (fun c => isDigitChar c || c == '.')).dropWhile
      (fun c => c != '.') with _ | ⟨x, r⟩
  · simp only [timestampFrac, hd] at hc
    simp at hc
    subst hc
    decide
  · simp only [timestampFrac, hd] at hc
    have hp := List.mem_takeWhile_imp hc
    have hcr : c ∈ r := (List.takeWhile_sublist _).subset hc
    have hmem : c ∈ ts.data.filter (fun c => isDigitChar c || c == '.') := by
      have hx : c ∈ x :: r := List.mem_cons_of_mem x hcr
      rw [← hd] at hx
      exact (List.dropWhile_sublist _).subset hx
    have hq := (List.mem_filter.mp hmem).2
    have hne : c ≠ '.' := by simpa using hp
    simpa [hne] using hq

theorem padRightZeros_digits (l : List Char) (h : ∀ c ∈ l, isDigitChar c = true) :
    ∀ c ∈ padRightZeros l, isDigitChar c = true := by
  intro c hc
  rcases List.mem_append.mp hc with hc | hc
  · exact h c hc
  · have := List.eq_of_mem_replicate hc
    subst this
    decide

theorem utcMillis_in_range (y m0 d h mi s ms : Int)
    (hy : 0 ≤ y) (hy2 : y < 10000) (hm : -1 ≤ m0) (hm2 : m0 < 99)
    (hd : 0 ≤ d) (hd2 : d < 100) (hh : 0 ≤ h) (hh2 : h < 100)
    (hmi : 0 ≤ mi) (hmi2 : mi < 100) (hs : 0 ≤ s) (hs2 : s < 100)
    (hms : 0 ≤ ms) (hms2 : ms < 1000) :
    -timeClipMax ≤ utcMillis y m0 d h mi s ms ∧ utcMillis y m0 d h mi s ms ≤ timeClipMax := by
  simp only [utcMillis, daysFromCivilM0, timeClipMax]
  split_ifs <;> omega

theorem jsDateUTC_in_range (y m0 d h mi s ms : Int)
    (hy : 0 ≤ y) (hy2 : y < 10000) (hm : -1 ≤ m0) (hm2 : m0 < 99)
    (hd : 0 ≤ d) (hd2 : d < 100) (hh : 0 ≤ h) (hh2 : h < 100)
    (hmi : 0 ≤ mi) (hmi2 : mi < 100) (hs : 0 ≤ s) (hs2 : s < 100)
    (hms : 0 ≤ ms) (hms2 : ms < 1000) :
    -timeClipMax ≤ jsDateUTC y m0 d h mi s ms ∧ jsDateUTC y m0 d h mi s ms ≤ timeClipMax := by
  simp only [jsDateUTC]
  split_ifs with h0
  · exact utcMillis_in_range (y + 1900) m0 d h mi s ms (by omega) (by omega) hm hm2
      hd hd2 hh hh2 hmi hmi2 hs hs2 hms hms2
  · exact utcMillis_in_range y m0 d h mi s ms hy hy2 hm hm2
      hd hd2 hh hh2 hmi hmi2 hs hs2 hms hms2

theorem jsDateUTC_eq_utcMillis_of_ge100 (y m0 d h mi s ms : Int) (hy : 100 ≤ y) :
    jsDateUTC y m0 d h mi s ms = utcMillis y m0 d h mi s ms := by
  simp only [jsDateUTC]
  rw [if_neg (by omega)]

/-- The seven component values that `parseTimestamp` extracts all lie in the
ranges `[0, 10^4) / [-1, 99) / [0, 100) / [0, 1000)` once at least 14 digits
precede the decimal point, so the `TimeClip` range test of `Date.UTC` never
rejects. -/
theorem parseTimestamp_clip_ok (ts : String) (h14 : 14 ≤ (timestampDigits ts).length) :
    -timeClipMax ≤ jsDateUTC (digitsVal ((timestampDigits ts).take 4))
      (digitsVal (((timestampDigits ts).drop 4).take 2) - 1)
      (digitsVal (((timestampDigits ts).drop 6).take 2))
      (digitsVal (((timestampDigits ts).drop 8).take 2))
      (digitsVal (((timestampDigits ts).drop 10).take 2))
      (digitsVal (((timestampDigits ts).drop 12).take 2))
      (digitsVal (padRightZeros ((timestampFrac ts).take 3))) ∧
    jsDateUTC (digitsVal ((timestampDigits ts).take 4))
      (digitsVal (((timestampDigits ts).drop 4).take 2) - 1)
      (digitsVal (((timestampDigits ts).drop 6).take 2))
      (digitsVal (((timestampDigits ts).drop 8).take 2))
      (digitsVal (((timestampDigits ts).drop 10).take 2))
      (digitsVal (((timestampDigits ts).drop 12).take 2))
      (digitsVal (padRightZeros ((timestampFrac ts).take 3))) ≤ timeClipMax := by
  have hdig := timestampDigits_digits ts
  have hy0 := digitsVal_nonneg ((timestampDigits ts).take 4)
    (fun c hc => hdig c (List.take_subset _ _ hc))
  have hy1 : digitsVal ((timestampDigits ts).take 4) < 10000 := by
    have hl : ((timestampDigits ts).take 4).length = 4 := by
      rw [List.length_take]
      omega
    have := digitsVal_lt ((timestampDigits ts).take 4)
      (fun c hc => hdig c (List.take_subset _ _ hc))
    rw [hl] at this
    norm_num at this
    exact this
  have hsub2 : ∀ k, ∀ c ∈ ((timestampDigits ts).drop k).take 2, isDigitChar c = true :=
    fun k c hc => hdig c (List.drop_subset _ _ (List.take_subset _ _ hc))
  have hb2 : ∀ k, k + 2 ≤ (timestampDigits ts).length →
      0 ≤ digitsVal (((timestampDigits ts).drop k).take 2) ∧
      digitsVal (((timestampDigits ts).drop k).take 2) < 100 := by
    intro k hk
    have hl : (((timestampDigits ts).drop k).take 2).length = 2 := by
      rw [List.length_take, List.length_drop]
      omega
    have h1 := digitsVal_nonneg _ (hsub2 k)
    have h2 := digitsVal_lt _ (hsub2 k)
    rw [hl] at h2
    norm_num at h2
    exact ⟨h1, h2⟩
  have hms0 := digitsVal_nonneg (padRightZeros ((timestampFrac ts).take 3))
    (padRightZeros_digits _ (fun c hc => timestampFrac_digits ts c (List.take_subset _ _ hc)))
  have hms1 : digitsVal (padRightZeros ((timestampFrac ts).take 3)) < 1000 := by
    have hl : (padRightZeros ((timestampFrac ts).take 3)).length = 3 := by
      rw [padRightZeros, List.length_append, List.length_replicate, List.length_take]
      omega
    have := digitsVal_lt (padRightZeros ((timestampFrac ts).take 3))
      (padRightZeros_digits _ (fun c hc => timestampFrac_digits ts c (List.take_subset _ _ hc)))
    rw [hl] at this
    exact lt_of_lt_of_le this (by norm_num)
  obtain ⟨hm4, hm4b⟩ := hb2 4 (by omega)
  obtain ⟨h6, h6b⟩ := hb2 6 (by omega)
  obtain ⟨h8, h8b⟩ := hb2 8 (by omega)
  obtain ⟨h10, h10b⟩ := hb2 10 (by omega)
  obtain ⟨h12, h12b⟩ := hb2 12 (by omega)
  exact jsDateUTC_in_range _ _ _ _ _ _ _ hy0 hy1 (by omega) (by omega)
    h6 h6b h8 h8b h10 h10b h12 h12b hms0 hms1

/-- C3 (amended): the normalizer strips every character that is not a digit or
a decimal point, returns `none` when fewer than 14 digits remain before the
decimal point, and — provided the 4-digit year component is at least 100 —
interprets the first 14 digits as `yyyyMMddHHmmss` in UTC with the first three
fractional digits (zero-padded) as milliseconds, agreeing with the literal
spec-worded reading `specTimestampNormalizer`; the claim's own example
`20240115103045.123` parses to exactly 2024-01-15T10:30:45.123Z
(`1705314645123` ms).  (For a year component 0–99, ECMAScript `Date.UTC`
offsets the year by 1900, so the unrestricted claim fails; see the
counterexample.) -/
theorem timestamp_normalizer_contract (ts : String) :
    ((timestampDigits ts).length < 14 → parseTimestamp ts = none) ∧
    (14 ≤ (timestampDigits ts).length →
      100 ≤ digitsVal ((timestampDigits ts).take 4) →
      parseTimestamp ts = specTimestampNormalizer ts) ∧
    parseTimestamp "20240115103045.123" = some 1705314645123 := by
  refine ⟨?_, ?_, by decide⟩
  · intro hlt
    unfold parseTimestamp
    rw [if_pos hlt]
  · intro h14 hy100
    obtain ⟨hlo, hhi⟩ := parseTimestamp_clip_ok ts h14
    unfold parseTimestamp specTimestampNormalizer
    rw [if_neg (by omega), if_neg (by omega)]
    rw [if_neg (by omega)]
    rw [jsDateUTC_eq_utcMillis_of_ge100 _ _ _ _ _ _ _ hy100]

/-- Counterexample to C3 as stated: on `00500115103045` the code parses the
year component 50 but ECMAScript `Date.UTC` maps years 0–99 to 1900+year, so
the result is the 1950 instant — `parseTimestamp` agrees with the input
`19500115103045` and disagrees with the literal first-four-digits-as-year
reading of the spec. -/
theorem timestamp_year_quirk_counterexample :
    parseTimestamp "00500115103045" = parseTimestamp "19500115103045" ∧
    parseTimestamp "00500115103045" = some (-629904555000) ∧
    specTimestampNormalizer "00500115103045" = some (-60588048555000) ∧
    parseTimestamp "00500115103045" ≠ specTimestampNormalizer "00500115103045" := by
  refine ⟨by decide, by decide, by decide, by decide⟩

/-- Witness for C3 (amended): the too-few-digits clause at `123` and the
agreement clause at the spec's own example input. -/
theorem timestamp_normalizer_witness :
    parseTimestamp "123" = none ∧
    parseTimestamp "20240115103045.123" = specTimestampNormalizer "20240115103045.123" :=
  ⟨(timestamp_normalizer_contract "123").1 (by decide),
   (timestamp_normalizer_contract "20240115103045.123").2.1 (by decide) (by decide)⟩

/-- C4 (amended): the normalizer never rejects a value with at least 14 digits
before the decimal point — out-of-range calendar components are normalised
arithmetically by `Date.UTC` instead of producing an unrepresentable date, and
the `TimeClip` range check cannot fire for 14-digit inputs; in particular day
32 of January 2024 yields the instant of February 1, 2024. -/
theorem timestamp_overflow_normalizes (ts : String) :
    (14 ≤ (timestampDigits ts).length → (parseTimestamp ts).isSome = true) ∧
    parseTimestamp "20240132103045" = some 1706783445000 := by
  refine ⟨?_, by decide⟩
  intro h14
  obtain ⟨hlo, hhi⟩ := parseTimestamp_clip_ok ts h14
  unfold parseTimestamp
  rw [if_neg (by omega), if_neg (by omega)]
  rfl

/-- Counterexample to C4 as stated: the day component 32 does not yield
"unparseable" — `parseTimestamp "20240132103045"` is an instant, namely the
same instant as the well-formed input `20240201103045` (February 1). -/
theorem timestamp_day32_counterexample :
    parseTimestamp "20240132103045" ≠ none ∧
    parseTimestamp "20240132103045" = parseTimestamp "20240201103045" := by
  refine ⟨by decide, by decide⟩

/-- Witness for C4 (amended) at the concrete day-32 input. -/
theorem timestamp_overflow_witness :
    (parseTimestamp "20240132103045").isSome = true :=
  (timestamp_overflow_normalizes "20240132103045").1 (by decide)

theorem ends_ms_ne (p t : String) (h : t.data.getLast? ≠ some 's') : p ++ " ms" ≠ t := by
  intro he
  apply h
  rw [← he, String.data_append, List.getLast?_append]
  rfl

theorem jsRound_fract_bounds (x : ℚ) :
    0 ≤ jsRound ((x - (⌊x⌋ : ℚ)) * 1000) ∧ jsRound ((x - (⌊x⌋ : ℚ)) * 1000) ≤ 1000 := by
  have h0 : (0:ℚ) ≤ x - (⌊x⌋ : ℚ) := by
    have := Int.floor_le x
    linarith
  have h1 : x - (⌊x⌋ : ℚ) < 1 := by
    have := Int.lt_floor_add_one x
    linarith
  constructor
  · rw [jsRound]
    rw [Int.le_floor]
    push_cast
    nlinarith
  · rw [jsRound]
    have hlt : ⌊(x - (⌊x⌋ : ℚ)) * 1000 + 1/2⌋ < 1001 := by
      rw [Int.floor_lt]
      push_cast
      nlinarith
    omega

/-- C8 (amended): the average reports "N/A" exactly when the effective filtered
set has no run with both `startTime` and `endTime` present (the mean of the
exact rational model is always defined on a non-empty set); a zero mean reports
the dedicated "0 sec"; a nonzero mean under one second reports milliseconds
only and is distinct from "0 sec"; a mean of at least one second reports whole
seconds plus a rounded residual, and that residual lies in `[0, 1000]` — it can
equal 1000 when the fractional part rounds up, which is why the claim's
"strictly under 1000" fails (see the counterexample). -/
theorem avg_duration_format (allRuns : List Run) (st : FilterState) :
    (avgProcessingTime allRuns st = "N/A" ↔ bothTimesRuns allRuns st = []) ∧
    (bothTimesRuns allRuns st ≠ [] → meanDurationMs (bothTimesRuns allRuns st) = 0 →
      avgProcessingTime allRuns st = "0 sec") ∧
    (bothTimesRuns allRuns st ≠ [] → meanDurationMs (bothTimesRuns allRuns st) ≠ 0 →
      meanDurationMs (bothTimesRuns allRuns st) < 1000 →
      avgProcessingTime allRuns st =
        toString (jsRound ((meanDurationMs (bothTimesRuns allRuns st) / 1000 -
          (⌊meanDurationMs (bothTimesRuns allRuns st) / 1000⌋ : ℚ)) * 1000)) ++ " ms" ∧
      avgProcessingTime allRuns st ≠ "0 sec") ∧
    (bothTimesRuns allRuns st ≠ [] → 1000 ≤ meanDurationMs (bothTimesRuns allRuns st) →
      avgProcessingTime allRuns st =
        toString ⌊meanDurationMs (bothTimesRuns allRuns st) / 1000⌋ ++ " sec, " ++
        toString (jsRound ((meanDurationMs (bothTimesRuns allRuns st) / 1000 -
          (⌊meanDurationMs (bothTimesRuns allRuns st) / 1000⌋ : ℚ)) * 1000)) ++ " ms" ∧
      1 ≤ ⌊meanDurationMs (bothTimesRuns allRuns st) / 1000⌋ ∧
      0 ≤ jsRound ((meanDurationMs (bothTimesRuns allRuns st) / 1000 -
        (⌊meanDurationMs (bothTimesRuns allRuns st) / 1000⌋ : ℚ)) * 1000) ∧
      jsRound ((meanDurationMs (bothTimesRuns allRuns st) / 1000 -
        (⌊meanDurationMs (bothTimesRuns allRuns st) / 1000⌋ : ℚ)) * 1000) ≤ 1000) := by
  by_cases hvr : bothTimesRuns allRuns st = []
  · have hlen : (bothTimesRuns allRuns st).length = 0 := by rw [hvr]; rfl
    refine ⟨?_, ?_, ?_, ?_⟩
    · simp only [avgProcessingTime]
      rw [if_pos hlen]
      simp [hvr]
    · intro h
      exact absurd hvr h
    · intro h
      exact absurd hvr h
    · intro h
      exact absurd hvr h
  · have hlen : ¬((bothTimesRuns allRuns st).length = 0) := by
      simpa [List.length_eq_zero] using hvr
    have hb := jsRound_fract_bounds (meanDurationMs (bothTimesRuns allRuns st) / 1000)
    refine ⟨?_, ?_, ?_, ?_⟩
    · simp only [avgProcessingTime]
      rw [if_neg hlen]
      constructor
      · intro h
        exfalso
        by_cases hz : meanDurationMs (bothTimesRuns allRuns st) = 0
        · rw [if_pos hz] at h
          exact absurd h (by decide)
        · rw [if_neg hz] at h
          split at h
          · revert h
            apply ends_ms_ne
            decide
          · revert h
            apply ends_ms_ne
            decide
      · intro h
        exact absurd h hvr
    · intro _ hz
      simp only [avgProcessingTime]
      rw [if_neg hlen, if_pos hz]
    · intro _ hz hlt
      have hsec : ⌊meanDurationMs (bothTimesRuns allRuns st) / 1000⌋ < 1 := by
        rw [Int.floor_lt]
        push_cast
        linarith
      simp only [avgProcessingTime]
      rw [if_neg hlen, if_neg hz, if_neg (by omega)]
      exact ⟨rfl, ends_ms_ne _ _ (by decide)⟩
    · intro _ hge
      have hz : meanDurationMs (bothTimesRuns allRuns st) ≠ 0 := by
        intro hc
        rw [hc] at hge
        norm_num at hge
      have hsec : 1 ≤ ⌊meanDurationMs (bothTimesRuns allRuns st) / 1000⌋ := by
        rw [Int.le_floor]
        push_cast
        linarith
      simp only [avgProcessingTime]
      rw [if_neg hlen, if_neg hz, if_pos (by omega)]
      exact ⟨rfl, hsec, hb.1, hb.2⟩

/-- Counterexample to C8's "residual milliseconds strictly under 1000": two
runs with durations 1999 ms and 2000 ms average to 1999.5 ms, and the rounded
fractional part is exactly 1000, so the report is "1 sec, 1000 ms". -/
theorem avg_duration_residual_counterexample :
    avgProcessingTime [plainRun (some 0) (some 1999), plainRun (some 0) (some 2000)]
      ⟨[], none⟩ = "1 sec, 1000 ms" := by
  have hbt : bothTimesRuns [plainRun (some 0) (some 1999), plainRun (some 0) (some 2000)]
      ⟨[], none⟩ = [plainRun (some 0) (some 1999), plainRun (some 0) (some 2000)] := by
    decide
  have hmean : meanDurationMs [plainRun (some 0) (some 1999), plainRun (some 0) (some 2000)] =
      3999 / 2 := by
    unfold meanDurationMs totalDurationMs
    norm_num [plainRun]
  simp only [avgProcessingTime]
  rw [hbt, hmean]
  rw [if_neg (by norm_num), if_neg (by norm_num)]
  have hfl : (⌊((3999:ℚ)/2) / 1000⌋ : Int) = 1 := by
    norm_num [Int.floor_eq_iff]
  rw [hfl]
  have hms : jsRound ((((3999:ℚ)/2) / 1000 - ((1:Int) : ℚ)) * 1000) = 1000 := by
    unfold jsRound
    have harg : (((3999:ℚ)/2) / 1000 - ((1:Int) : ℚ)) * 1000 + 1/2 = 1000 := by
      push_cast
      ring
    rw [harg]
    norm_num [Int.floor_eq_iff]
  rw [hms]
  rw [if_pos (by norm_num)]
  decide

/-- Witness for C8 (amended): one run with a zero duration reports "0 sec". -/
theorem avg_duration_witness :
    avgProcessingTime [plainRun (some 5) (some 5)] ⟨[], none⟩ = "0 sec" :=
  (avg_duration_format [plainRun (some 5) (some 5)] ⟨[], none⟩).2.1 (by decide)
    (by unfold meanDurationMs totalDurationMs; norm_num [plainRun]; decide)

theorem processLogFile_ok_shape {content : String} {runs : List Run}
    (h : processLogFile content = .ok runs) :
    ∃ cfg rows, runs = runsOfRows cfg rows := by
  simp only [processLogFile] at h
  split at h
  · simp at h
  · split at h
    · simp at h
    · split at h
      · simp at h
      · split at h
        · simp at h
        · split at h
          · simp at h
          · split at h
            · simp at h
            · exact ⟨_, _, ((Except.ok.injEq _ _).mp h).symm⟩

theorem run_from_group {cfg : ColumnConfig} {rows : List (List String)} {r : Run}
    (hr : r ∈ runsOfRows cfg rows) :
    ∃ p ∈ rows.foldl (fun m fields => ingestRow cfg m fields) [], r = buildRun p.1 p.2 := by
  unfold runsOfRows at hr
  obtain ⟨p, hp, hpr⟩ := List.mem_map.mp hr
  exact ⟨p, hp, hpr.symm⟩

theorem mem_updateGroup {m : List (String × GroupData)} {key : String}
    {f : GroupData → GroupData} {init : GroupData} {p : String × GroupData}
    (hp : p ∈ updateGroup m key f init) :
    (∃ q ∈ m, p = q ∨ p = (q.1, f q.2)) ∨ p = (key, f init) := by
  unfold updateGroup at hp
  split at hp
  · obtain ⟨q, hq, hpq⟩ := List.mem_map.mp hp
    refine Or.inl ⟨q, hq, ?_⟩
    split at hpq
    · right
      rw [← hpq]
    · left
      exact hpq.symm
  · rcases List.mem_append.mp hp with hp | hp
    · exact Or.inl ⟨p, hp, Or.inl rfl⟩
    · simp at hp
      exact Or.inr hp

theorem ingestRow_inv (P : GroupData → Prop)
    (hstep : ∀ g, P g → ∀ msg ty : String, ∀ ts' : Option Int,
      P { g with
        entries := if msg ≠ "" then g.entries ++ [⟨msg, ty, ts'⟩] else g.entries
        timestamps := match ts' with
          | some t => g.timestamps ++ [t]
          | none => g.timestamps })
    (hinit : ∀ co : String, co ≠ "" → ∀ msg ty : String, ∀ ts' : Option Int,
      P { entries := if msg ≠ "" then [(⟨msg, ty, ts'⟩ : Entry)] else []
          coCd := co
          timestamps := match ts' with
            | some t => [t]
            | none => ([] : List Int) })
    (cfg : ColumnConfig) (m : List (String × GroupData)) (fields : List String)
    (hm : ∀ p ∈ m, P p.2) :
    ∀ p ∈ ingestRow cfg m fields, P p.2 := by
  intro p hp
  simp only [ingestRow] at hp
  split at hp
  · exact hm p hp
  · split at hp
    · rename_i hcond
      rcases mem_updateGroup hp with ⟨q, hq, hq2⟩ | hini
      · rcases hq2 with h1 | h1
        · rw [h1]
          exact hm q hq
        · rw [h1]
          exact hstep q.2 (hm q hq) _ _ _
      · rw [hini]
        have := hinit (jsTrim (fields.getD cfg.coCdIndex "")) hcond.2
          (jsTrim (fields.getD cfg.messageIndex ""))
          (jsTrim (fields.getD cfg.typeIndex ""))
          (parseTimestamp (jsTrim (fields.getD cfg.timestampIndex "")))
        simpa using this
    · exact hm p hp

theorem foldl_inv (P : GroupData → Prop)
    (hstep : ∀ g, P g → ∀ msg ty : String, ∀ ts' : Option Int,
      P { g with
        entries := if msg ≠ "" then g.entries ++ [⟨msg, ty, ts'⟩] else g.entries
        timestamps := match ts' with
          | some t => g.timestamps ++ [t]
          | none => g.timestamps })
    (hinit : ∀ co : String, co ≠ "" → ∀ msg ty : String, ∀ ts' : Option Int,
      P { entries := if msg ≠ "" then [(⟨msg, ty, ts'⟩ : Entry)] else []
          coCd := co
          timestamps := match ts' with
            | some t => [t]
            | none => ([] : List Int) })
    (cfg : ColumnConfig) (rows : List (List String)) (m : List (String × GroupData))
    (hm : ∀ p ∈ m, P p.2) :
    ∀ p ∈ rows.foldl (fun acc fields => ingestRow cfg acc fields) m, P p.2 := by
  induction rows generalizing m with
  | nil => simpa using hm
  | cons row rest ih =>
    exact ih (ingestRow cfg m row) (ingestRow_inv P hstep hinit cfg m row hm)

theorem coCd_inv_step (cfg : ColumnConfig) (rows : List (List String)) :
    ∀ p ∈ rows.foldl (fun acc fields => ingestRow cfg acc fields) [], p.2.coCd ≠ "" := by
  apply foldl_inv (fun g => g.coCd ≠ "")
  · intro g hg msg ty ts'
    simpa using hg
  · intro co hco msg ty ts'
    simpa using hco
  · intro p hp
    cases hp

/-- C9: every run produced by the parser carries a company code that is a
present, non-empty string — even though the `Run` type allows `null` — because
rows with an empty trimmed document id or company code are skipped and a group
is only ever created from a non-empty company code. -/
theorem company_code_nonempty (content : String) (runs : List Run)
    (h : processLogFile content = .ok runs) :
    ∀ r ∈ runs, r.companyCode ≠ none ∧ r.companyCode ≠ some "" := by
  obtain ⟨cfg, rows, rfl⟩ := processLogFile_ok_shape h
  intro r hr
  obtain ⟨p, hp, rfl⟩ := run_from_group hr
  have hco : p.2.coCd ≠ "" := coCd_inv_step cfg rows p hp
  constructor
  · simp [buildRun]
  · simp [buildRun, hco]

/-- Witness for C9 at a concrete one-row input. -/
theorem company_code_nonempty_witness :
    (buildRun "D1--US1" ⟨[⟨"hello", "S", none⟩], "US1", []⟩).companyCode ≠ none ∧
    (buildRun "D1--US1" ⟨[⟨"hello", "S", none⟩], "US1", []⟩).companyCode ≠ some "" :=
  company_code_nonempty c9File [buildRun "D1--US1" ⟨[⟨"hello", "S", none⟩], "US1", []⟩]
    (by rfl) (buildRun "D1--US1" ⟨[⟨"hello", "S", none⟩], "US1", []⟩) (by simp)

theorem tsClosed_inv_step (cfg : ColumnConfig) (rows : List (List String)) :
    ∀ p ∈ rows.foldl (fun acc fields => ingestRow cfg acc fields) [], tsClosed p.2 := by
  apply foldl_inv tsClosed
  · intro g hg msg ty ts'
    intro e he t het
    rcases ts' with _ | tv
    · simp only at he ⊢
      split at he
      · rcases List.mem_append.mp he with he | he
        · exact hg e he t het
        · simp at he
          subst he
          simp at het
      · exact hg e he t het
    · simp only at he ⊢
      rw [List.mem_append]
      split at he
      · rcases List.mem_append.mp he with he | he
        · exact Or.inl (hg e he t het)
        · simp at he
          subst he
          simp at het
          subst het
          simp
      · exact Or.inl (hg e he t het)
  · intro co hco msg ty ts'
    intro e he t het
    rcases ts' with _ | tv
    · simp only at he ⊢
      split at he
      · simp at he
        subst he
        simp at het
      · cases he
    · simp only at he ⊢
      split at he
      · simp at he
        subst he
        simp at het
        subst het
        simp
      · cases he
  · intro p hp
    cases hp

theorem maxInt?_mem {l : List Int} {m : Int} (h : maxInt? l = some m) : m ∈ l := by
  induction l generalizing m with
  | nil => cases h
  | cons x r ih =>
    rw [maxInt?] at h
    rcases hr : maxInt? r with _ | mr
    · rw [hr] at h
      simp at h
      simp [← h]
    · rw [hr] at h
      simp at h
      rcases max_choice x mr with hc | hc
      · rw [← h, hc]
        simp
      · rw [← h, hc]
        simp [ih hr]

theorem le_maxInt? {t : Int} {l : List Int} (h : t ∈ l) :
    ∃ m, maxInt? l = some m ∧ t ≤ m := by
  induction l with
  | nil => cases h
  | cons x r ih =>
    rcases List.mem_cons.mp h with rfl | hr
    · rcases hmr : maxInt? r with _ | m
      · exact ⟨t, by simp [maxInt?, hmr], le_refl t⟩
      · exact ⟨max t m, by simp [maxInt?, hmr], le_max_left _ _⟩
    · obtain ⟨m, hm, htm⟩ := ih hr
      exact ⟨max x m, by simp [maxInt?, hm], le_trans htm (le_max_right _ _)⟩

theorem latestMarkerTime_entry {marker : String} {entries : List Entry} {t : Int}
    (h : latestMarkerTime marker entries = some t) :
    ∃ e ∈ entries, e.message = marker ∧ e.timestamp = some t := by
  unfold latestMarkerTime at h
  have hmem := maxInt?_mem h
  obtain ⟨e, he, hfe⟩ := List.mem_filterMap.mp hmem
  refine ⟨e, he, ?_⟩
  by_cases hm : e.message = marker
  · rw [if_pos hm] at hfe
    exact ⟨hm, hfe⟩
  · rw [if_neg hm] at hfe
    cases hfe

theorem buildRun_time_le (key : String) (g : GroupData) (hg : tsClosed g) :
    (∀ t, (buildRun key g).startTime = some t → t ≤ (buildRun key g).transactionDate) ∧
    (∀ t, (buildRun key g).endTime = some t → t ≤ (buildRun key g).transactionDate) := by
  have hst : (buildRun key g).startTime = latestMarkerTime startProcessingMessage g.entries := by
    simp only [buildRun]
    exact head_bind_timestamp _ _
  have hen : (buildRun key g).endTime = latestMarkerTime endProcessingMessage g.entries := by
    simp only [buildRun]
    exact head_bind_timestamp _ _
  constructor
  · intro t ht
    rw [hst] at ht
    obtain ⟨e, he, _, hets⟩ := latestMarkerTime_entry ht
    have htl : t ∈ g.timestamps := hg e he t hets
    obtain ⟨m, hm, htm⟩ := le_maxInt? htl
    have : (buildRun key g).transactionDate = m := by
      simp only [buildRun, hm]
    rw [this]
    exact htm
  · intro t ht
    rw [hen] at ht
    obtain ⟨e, he, _, hets⟩ := latestMarkerTime_entry ht
    have htl : t ∈ g.timestamps := hg e he t hets
    obtain ⟨m, hm, htm⟩ := le_maxInt? htl
    have : (buildRun key g).transactionDate = m := by
      simp only [buildRun, hm]
    rw [this]
    exact htm

/-- C10: for every run produced by the parser, a present `startTime` or
`endTime` never exceeds `transactionDate`, because every parsed entry
timestamp is also recorded in the group's timestamp list whose maximum becomes
`transactionDate`. -/
theorem start_end_le_transaction_date (content : String) (runs : List Run)
    (h : processLogFile content = .ok runs) :
    ∀ r ∈ runs, (∀ t, r.startTime = some t → t ≤ r.transactionDate) ∧
      (∀ t, r.endTime = some t → t ≤ r.transactionDate) := by
  obtain ⟨cfg, rows, rfl⟩ := processLogFile_ok_shape h
  intro r hr
  obtain ⟨p, hp, rfl⟩ := run_from_group hr
  exact buildRun_time_le p.1 p.2 (tsClosed_inv_step cfg rows p hp)

/-- Witness for C10 at a concrete input whose single entry is a "processing
completed" marker at `20240301120005` (epoch ms `1709294405000`). -/
theorem start_end_le_witness :
    (1709294405000 : Int) ≤ (buildRun "D1--US1"
      ⟨[⟨endProcessingMessage, "S", some 1709294405000⟩], "US1",
        [1709294405000]⟩).transactionDate :=
  (start_end_le_transaction_date c10File
      [buildRun "D1--US1" ⟨[⟨endProcessingMessage, "S", some 1709294405000⟩], "US1",
        [1709294405000]⟩]
      (by rfl)
      (buildRun "D1--US1" ⟨[⟨endProcessingMessage, "S", some 1709294405000⟩], "US1",
        [1709294405000]⟩)
      (by simp)).2 1709294405000 (by rfl)

theorem ingestRow_std (m : List (String × GroupData)) (d v c msg ts ty : String)
    (hd : jsTrim d ≠ "") (hc : jsTrim c ≠ "") :
    ingestRow stdCfg m [d, v, c, msg, ts, ty] =
      updateGroup m (jsTrim d ++ "-" ++ jsTrim v ++ "-" ++ jsTrim c)
        (fun g =>
          { g with
            entries := if jsTrim msg ≠ "" then
              g.entries ++ [⟨jsTrim msg, jsTrim ty, parseTimestamp (jsTrim ts)⟩]
              else g.entries
            timestamps := match parseTimestamp (jsTrim ts) with
              | some t => g.timestamps ++ [t]
              | none => g.timestamps })
        { entries := [], coCd := jsTrim c, timestamps := [] } := by
  simp only [ingestRow, stdCfg]
  rw [if_neg (by simp), if_pos ⟨hd, hc⟩]
  rfl

theorem append_opt_entry (A : List Entry) (e : Entry) (P : Prop) [Decidable P] :
    (if P then A ++ [e] else A) = A ++ (if P then [e] else []) := by
  split <;> simp

theorem append_opt_ts (X : List Int) (o : Option Int) :
    (match o with | some t => X ++ [t] | none => X) =
      X ++ (match o with | some t => [t] | none => ([] : List Int)) := by
  rcases o with _ | t <;> simp

/-- C1 (amended): two rows contribute to the same run exactly when their
hyphen-joined key strings `docId-version-companyCode` coincide; equal
(document id, version, company code) triples always yield equal keys, and in
that case the two rows produce exactly one run whose seven boolean flags are
the pointwise OR of the flags each row alone would produce, while rows with
distinct keys produce two runs.  (Distinct triples can still share a run when
a field contains a hyphen — the string-concatenated key collides — so the
claim's "distinct triples never share a Run" is corrected to distinct keys;
see the counterexample.) -/
theorem grouping_merges_by_key (d1 v1 c1 m1 t1 y1 d2 v2 c2 m2 t2 y2 : String)
    (h1 : jsTrim d1 ≠ "") (h2 : jsTrim c1 ≠ "") (h3 : jsTrim d2 ≠ "")
    (h4 : jsTrim c2 ≠ "") :
    (jsTrim d1 = jsTrim d2 ∧ jsTrim v1 = jsTrim v2 ∧ jsTrim c1 = jsTrim c2 →
      jsTrim d1 ++ "-" ++ jsTrim v1 ++ "-" ++ jsTrim c1 =
        jsTrim d2 ++ "-" ++ jsTrim v2 ++ "-" ++ jsTrim c2) ∧
    (jsTrim d1 ++ "-" ++ jsTrim v1 ++ "-" ++ jsTrim c1 =
        jsTrim d2 ++ "-" ++ jsTrim v2 ++ "-" ++ jsTrim c2 →
      ∃ r r1 r2,
        runsOfRows stdCfg [[d1, v1, c1, m1, t1, y1], [d2, v2, c2, m2, t2, y2]] = [r] ∧
        runsOfRows stdCfg [[d1, v1, c1, m1, t1, y1]] = [r1] ∧
        runsOfRows stdCfg [[d2, v2, c2, m2, t2, y2]] = [r2] ∧
        r.isIntercompany = (r1.isIntercompany || r2.isIntercompany) ∧
        r.isAutoApproved = (r1.isAutoApproved || r2.isAutoApproved) ∧
        r.isSecondLevelApproval = (r1.isSecondLevelApproval || r2.isSecondLevelApproval) ∧
        r.isErrorTransaction = (r1.isErrorTransaction || r2.isErrorTransaction) ∧
        r.isWbsOwnerMissing = (r1.isWbsOwnerMissing || r2.isWbsOwnerMissing) ∧
        r.isCostCenterOwnerMissing =
          (r1.isCostCenterOwnerMissing || r2.isCostCenterOwnerMissing) ∧
        r.isFallbackTransaction = (r1.isFallbackTransaction || r2.isFallbackTransaction)) ∧
    (jsTrim d1 ++ "-" ++ jsTrim v1 ++ "-" ++ jsTrim c1 ≠
        jsTrim d2 ++ "-" ++ jsTrim v2 ++ "-" ++ jsTrim c2 →
      (runsOfRows stdCfg [[d1, v1, c1, m1, t1, y1],
        [d2, v2, c2, m2, t2, y2]]).length = 2) := by
  refine ⟨?_, ?_, ?_⟩
  · rintro ⟨e1, e2, e3⟩
    rw [e1, e2, e3]
  · intro hk
    have hi1 : ingestRow stdCfg [] [d1, v1, c1, m1, t1, y1] =
        [(jsTrim d1 ++ "-" ++ jsTrim v1 ++ "-" ++ jsTrim c1,
          ⟨if jsTrim m1 ≠ "" then [⟨jsTrim m1, jsTrim y1, parseTimestamp (jsTrim t1)⟩] else [],
            jsTrim c1,
            match parseTimestamp (jsTrim t1) with
            | some t => [t]
            | none => []⟩)] := by
      rw [ingestRow_std [] d1 v1 c1 m1 t1 y1 h1 h2]
      simp [updateGroup]
    have hi2 : ingestRow stdCfg [] [d2, v2, c2, m2, t2, y2] =
        [(jsTrim d2 ++ "-" ++ jsTrim v2 ++ "-" ++ jsTrim c2,
          ⟨if jsTrim m2 ≠ "" then [⟨jsTrim m2, jsTrim y2, parseTimestamp (jsTrim t2)⟩] else [],
            jsTrim c2,
            match parseTimestamp (jsTrim t2) with
            | some t => [t]
            | none => []⟩)] := by
      rw [ingestRow_std [] d2 v2 c2 m2 t2 y2 h3 h4]
      simp [updateGroup]
    have hmerge : ingestRow stdCfg
        [(jsTrim d1 ++ "-" ++ jsTrim v1 ++ "-" ++ jsTrim c1,
          ⟨if jsTrim m1 ≠ "" then [⟨jsTrim m1, jsTrim y1, parseTimestamp (jsTrim t1)⟩] else [],
            jsTrim c1,
            match parseTimestamp (jsTrim t1) with
            | some t => [t]
            | none => []⟩)] [d2, v2, c2, m2, t2, y2] =
        [(jsTrim d1 ++ "-" ++ jsTrim v1 ++ "-" ++ jsTrim c1,
          ⟨(if jsTrim m1 ≠ "" then [⟨jsTrim m1, jsTrim y1, parseTimestamp (jsTrim t1)⟩] else [])
            ++ (if jsTrim m2 ≠ "" then [⟨jsTrim m2, jsTrim y2, parseTimestamp (jsTrim t2)⟩]
              else []),
            jsTrim c1,
            (match parseTimestamp (jsTrim t1) with
              | some t => [t]
              | none => ([] : List Int)) ++
            (match parseTimestamp (jsTrim t2) with
              | some t => [t]
              | none => ([] : List Int))⟩)] := by
      rw [ingestRow_std _ d2 v2 c2 m2 t2 y2 h3 h4, ← hk]
      simp only [updateGroup, List.any_cons, List.any_nil, beq_self_eq_true, Bool.true_or,
        Bool.or_false, if_true, List.map_cons, List.map_nil]
      rw [append_opt_entry, append_opt_ts]
    refine ⟨buildRun (jsTrim d1 ++ "-" ++ jsTrim v1 ++ "-" ++ jsTrim c1)
        ⟨(if jsTrim m1 ≠ "" then [⟨jsTrim m1, jsTrim y1, parseTimestamp (jsTrim t1)⟩] else [])
          ++ (if jsTrim m2 ≠ "" then [⟨jsTrim m2, jsTrim y2, parseTimestamp (jsTrim t2)⟩]
            else []),
          jsTrim c1,
          (match parseTimestamp (jsTrim t1) with
            | some t => [t]
            | none => ([] : List Int)) ++
          (match parseTimestamp (jsTrim t2) with
            | some t => [t]
            | none => ([] : List Int))⟩,
      buildRun (jsTrim d1 ++ "-" ++ jsTrim v1 ++ "-" ++ jsTrim c1)
        ⟨if jsTrim m1 ≠ "" then [⟨jsTrim m1, jsTrim y1, parseTimestamp (jsTrim t1)⟩] else [],
          jsTrim c1,
          match parseTimestamp (jsTrim t1) with
          | some t => [t]
          | none => []⟩,
      buildRun (jsTrim d2 ++ "-" ++ jsTrim v2 ++ "-" ++ jsTrim c2)
        ⟨if jsTrim m2 ≠ "" then [⟨jsTrim m2, jsTrim y2, parseTimestamp (jsTrim t2)⟩] else [],
          jsTrim c2,
          match parseTimestamp (jsTrim t2) with
          | some t => [t]
          | none => []⟩, ?_, ?_, ?_, ?_, ?_, ?_, ?_, ?_, ?_, ?_⟩
    · show ((List.foldl (fun m fields => ingestRow stdCfg m fields) []
        [[d1, v1, c1, m1, t1, y1], [d2, v2, c2, m2, t2, y2]]).map
          (fun p => buildRun p.1 p.2)) = _
      rw [List.foldl_cons, List.foldl_cons, List.foldl_nil, hi1, hmerge]
      rfl
    · show ((List.foldl (fun m fields => ingestRow stdCfg m fields) []
        [[d1, v1, c1, m1, t1, y1]]).map (fun p => buildRun p.1 p.2)) = _
      rw [List.foldl_cons, List.foldl_nil, hi1]
      rfl
    · show ((List.foldl (fun m fields => ingestRow stdCfg m fields) []
        [[d2, v2, c2, m2, t2, y2]]).map (fun p => buildRun p.1 p.2)) = _
      rw [List.foldl_cons, List.foldl_nil, hi2]
      rfl
    all_goals simp only [buildRun, List.any_append]
  · intro hne
    have hi1 : ingestRow stdCfg [] [d1, v1, c1, m1, t1, y1] =
        [(jsTrim d1 ++ "-" ++ jsTrim v1 ++ "-" ++ jsTrim c1,
          ⟨if jsTrim m1 ≠ "" then [⟨jsTrim m1, jsTrim y1, parseTimestamp (jsTrim t1)⟩] else [],
            jsTrim c1,
            match parseTimestamp (jsTrim t1) with
            | some t => [t]
            | none => []⟩)] := by
      rw [ingestRow_std [] d1 v1 c1 m1 t1 y1 h1 h2]
      simp [updateGroup]
    show ((List.foldl (fun m fields => ingestRow stdCfg m fields) []
        [[d1, v1, c1, m1, t1, y1], [d2, v2, c2, m2, t2, y2]]).map
          (fun p => buildRun p.1 p.2)).length = 2
    rw [List.foldl_cons, List.foldl_cons, List.foldl_nil, hi1]
    rw [ingestRow_std _ d2 v2 c2 m2 t2 y2 h3 h4]
    have hbe : ((jsTrim d1 ++ "-" ++ jsTrim v1 ++ "-" ++ jsTrim c1) ==
        (jsTrim d2 ++ "-" ++ jsTrim v2 ++ "-" ++ jsTrim c2)) = false := by
      rw [beq_eq_false_iff_ne]
      exact hne
    simp [updateGroup, hbe]

/-- Counterexample to C1's "two rows with distinct triples never share a Run":
the rows `(a, b-c, d)` and `(a-b, c, d)` have different (document id, version,
company code) triples, yet both map to the key string `a-b-c-d` and the whole
file produces exactly one run. -/
theorem distinct_triples_share_run_counterexample :
    (analysisRuns (processLogFile collisionFile)).map List.length = some 1 ∧
    (("a", "b-c", "d") : String × String × String) ≠ ("a-b", "c", "d") :=
  ⟨by decide, by decide⟩

/-- Witness for C1 (amended): two rows with the identical triple
`(D1, 1, US1)` and different messages produce exactly one run. -/
theorem grouping_merges_witness :
    (runsOfRows stdCfg [["D1", "1", "US1", "alpha", "x", "S"],
      ["D1", "1", "US1", "beta", "x", "S"]]).length = 1 := by
  obtain ⟨r, r1, r2, hA, _⟩ := (grouping_merges_by_key "D1" "1" "US1" "alpha" "x" "S"
    "D1" "1" "US1" "beta" "x" "S" (by decide) (by decide) (by decide) (by decide)).2.1 rfl
  simp [hA]

end AuditLog
